import Mathlib

/-!
Verification development for the masters-program comparison dashboard
(`src/app.py`).  The scoring engine is shallowly embedded: pandas `Series`
of float64 become `List (Option ℚ)` (with `none` playing the role of `NaN`,
since every arithmetic operation and comparison on `NaN` propagates /
returns false, exactly as `none` does below), and data frames become lists
of records.  All definitions are translated from `src/app.py`; the few
places where a pandas/numpy library call is part of the program's meaning
(median, min/max with NaN skipping, `sort_values` with the default
`quicksort` kind) are modelled from those libraries' documented and
implemented behaviour, as noted at each definition.
-/

namespace Dashboard

/-- IEEE-style addition on possibly-missing values: `NaN` propagates. -/
def optAdd : Option ℚ → Option ℚ → Option ℚ
  | some a, some b => some (a + b)
  | _, _ => none

/-- IEEE-style multiplication by a constant: `NaN` propagates. -/
def optMulC (o : Option ℚ) (c : ℚ) : Option ℚ :=
  o.map (fun x => x * c)

/-- IEEE-style comparison `x < c`: any comparison with `NaN` is false. -/
def optLtC (o : Option ℚ) (c : ℚ) : Bool :=
  match o with
  | some x => decide (x < c)
  | none => false

/-- Maximum of a list of rationals (`none` on the empty list).  Models
`numpy`/pandas `max` with `skipna` after the `NaN` entries have been
filtered away. -/
def smax : List ℚ → Option ℚ
  | [] => none
  | x :: xs =>
    match smax xs with
    | none => some x
    | some m => some (max x m)

/-- Minimum of a list of rationals (`none` on the empty list). -/
def smin : List ℚ → Option ℚ
  | [] => none
  | x :: xs =>
    match smin xs with
    | none => some x
    | some m => some (min x m)

/-- pandas `Series.max()`: skip the missing entries, `NaN` if none are left. -/
def seriesMax (s : List (Option ℚ)) : Option ℚ := smax (s.filterMap id)

/-- pandas `Series.min()`: skip the missing entries, `NaN` if none are left. -/
def seriesMin (s : List (Option ℚ)) : Option ℚ := smin (s.filterMap id)

/-- pandas `fillna` on one entry: replace it by `v` when it is missing;
filling with `NaN` (here `none`) leaves the entry unchanged. -/
def fill1 (o v : Option ℚ) : Option ℚ :=
  match v with
  | none => o
  | some x => some (o.getD x)

/-- pandas `Series.fillna(v)`: replace the missing entries by `v`; filling
with `NaN` (here `none`) leaves the series unchanged. -/
def fillna (s : List (Option ℚ)) (v : Option ℚ) : List (Option ℚ) :=
  s.map (fun o => fill1 o v)

/-- Median of a list of rationals, as `numpy`/pandas compute it: sort
ascending, take the middle element (odd length) or the mean of the two
middle elements (even length); `NaN` on the empty list. -/
def medianQ (l : List ℚ) : Option ℚ :=
  if l = [] then none
  else if l.length % 2 = 1 then
    some ((List.insertionSort (· ≤ ·) l).getD (l.length / 2) 0)
  else
    some (((List.insertionSort (· ≤ ·) l).getD (l.length / 2 - 1) 0 +
      (List.insertionSort (· ≤ ·) l).getD (l.length / 2) 0) / 2)

/-- pandas `Series.median()`: the median of the non-missing entries
(`skipna` is the default). -/
def seriesMedian (s : List (Option ℚ)) : Option ℚ := medianQ (s.filterMap id)

/-- A rational given directly in constructor normal form, so that kernel
reduction (`decide`) can evaluate comparisons on concrete inputs. -/
def intQ (n : Int) : ℚ :=
  ⟨n, 1, one_ne_zero, Nat.coprime_one_right _⟩

theorem intQ_eq (n : Int) : intQ n = (n : ℚ) := by
  have h : ((n : ℚ)).num = n := Rat.intCast_num n
  have h2 : ((n : ℚ)).den = 1 := Rat.intCast_den n
  apply Rat.ext
  · simp [intQ, h]
  · simp [intQ, h2]

/-! ### Facts about `smax`, `smin` and the median -/

theorem smax_isSome {l : List ℚ} (h : l ≠ []) : (smax l).isSome := by
  cases l with
  | nil => exact absurd rfl h
  | cons x xs =>
    cases hxs : smax xs <;> simp [smax, hxs]

theorem smax_mem {l : List ℚ} {M : ℚ} (h : smax l = some M) : M ∈ l := by
  induction l generalizing M with
  | nil => simp [smax] at h
  | cons x xs ih =>
    cases hxs : smax xs with
    | none =>
      rw [smax, hxs] at h
      simp at h
      simp [h]
    | some m =>
      rw [smax, hxs] at h
      simp at h
      rcases le_total x m with hle | hle
      · have : M = m := by rw [← h, max_eq_right hle]
        exact List.mem_cons_of_mem _ (this ▸ ih hxs)
      · have : M = x := by rw [← h, max_eq_left hle]
        simp [this]

theorem le_smax {l : List ℚ} {a M : ℚ} (ha : a ∈ l) (h : smax l = some M) :
    a ≤ M := by
  induction l generalizing M with
  | nil => simp at ha
  | cons x xs ih =>
    cases hxs : smax xs with
    | none =>
      have hnil : xs = [] := by
        cases xs with
        | nil => rfl
        | cons y ys => cases hys : smax ys <;> simp [smax, hys] at hxs
      rw [smax, hxs] at h
      simp at h
      subst hnil
      simp at ha
      simp [ha, h]
    | some m =>
      rw [smax, hxs] at h
      simp at h
      rcases List.mem_cons.1 ha with rfl | hmem
      · rw [← h]; exact le_max_left _ _
      · rw [← h]; exact le_trans (ih hmem hxs) (le_max_right _ _)

theorem smin_isSome {l : List ℚ} (h : l ≠ []) : (smin l).isSome := by
  cases l with
  | nil => exact absurd rfl h
  | cons x xs =>
    cases hxs : smin xs <;> simp [smin, hxs]

theorem smin_mem {l : List ℚ} {m : ℚ} (h : smin l = some m) : m ∈ l := by
  induction l generalizing m with
  | nil => simp [smin] at h
  | cons x xs ih =>
    cases hxs : smin xs with
    | none =>
      rw [smin, hxs] at h
      simp at h
      simp [h]
    | some m0 =>
      rw [smin, hxs] at h
      simp at h
      rcases le_total x m0 with hle | hle
      · have : m = x := by rw [← h, min_eq_left hle]
        simp [this]
      · have : m = m0 := by rw [← h, min_eq_right hle]
        exact List.mem_cons_of_mem _ (this ▸ ih hxs)

theorem smin_le {l : List ℚ} {a m : ℚ} (ha : a ∈ l) (h : smin l = some m) :
    m ≤ a := by
  induction l generalizing m with
  | nil => simp at ha
  | cons x xs ih =>
    cases hxs : smin xs with
    | none =>
      have hnil : xs = [] := by
        cases xs with
        | nil => rfl
        | cons y ys => cases hys : smin ys <;> simp [smin, hys] at hxs
      rw [smin, hxs] at h
      simp at h
      subst hnil
      simp at ha
      simp [ha, h]
    | some m0 =>
      rw [smin, hxs] at h
      simp at h
      rcases List.mem_cons.1 ha with rfl | hmem
      · rw [← h]; exact min_le_left _ _
      · rw [← h]; exact le_trans (min_le_right _ _) (ih hmem hxs)

/-- The median of a non-empty list lies between its minimum and maximum. -/
theorem medianQ_between {l : List ℚ} {M m med : ℚ} (hM : smax l = some M)
    (hm : smin l = some m) (hmed : medianQ l = some med) :
    m ≤ med ∧ med ≤ M := by
  have hne : l ≠ [] := by
    intro h
    subst h
    simp [smax] at hM
  have hperm := List.perm_insertionSort (α := ℚ) (· ≤ ·) l
  have hlen : (List.insertionSort (· ≤ ·) l).length = l.length :=
    hperm.length_eq
  have hmem : ∀ i, i < l.length →
      (List.insertionSort (· ≤ ·) l).getD i 0 ∈ l := by
    intro i hi
    have hi' : i < (List.insertionSort (· ≤ ·) l).length := by rwa [hlen]
    rw [List.getD_eq_getElem?_getD, List.getElem?_eq_getElem hi']
    exact hperm.mem_iff.1 (List.getElem_mem hi')
  rw [medianQ, if_neg hne] at hmed
  have hlpos : 0 < l.length := List.length_pos.2 hne
  by_cases hodd : l.length % 2 = 1
  · rw [if_pos hodd] at hmed
    have hin : (List.insertionSort (· ≤ ·) l).getD (l.length / 2) 0 ∈ l :=
      hmem _ (Nat.div_lt_self hlpos (by norm_num))
    have := Option.some.inj hmed
    subst this
    exact ⟨smin_le hin hm, le_smax hin hM⟩
  · rw [if_neg hodd] at hmed
    have h1 : l.length / 2 - 1 < l.length := by
      have := Nat.div_le_self l.length 2
      omega
    have h2 : l.length / 2 < l.length := by
      have h2' : l.length % 2 = 0 := Nat.mod_two_eq_zero_or_one l.length |>.resolve_right hodd
      omega
    have hin1 := hmem _ h1
    have hin2 := hmem _ h2
    have := Option.some.inj hmed
    subst this
    constructor
    · have a1 := smin_le hin1 hm
      have a2 := smin_le hin2 hm
      linarith
    · have a1 := le_smax hin1 hM
      have a2 := le_smax hin2 hM
      linarith

/-! ### The data model and `load_data` (`src/app.py`, lines 18-34)

A `Row` is one record of the CSV after the loader's type coercions: the
columns listed in `numeric_cols` have gone through
`pd.to_numeric(..., errors="coerce")`, so each of them is `Option ℚ`
(`none` for an absent or unparseable cell), `practicas_ofrecidas` has gone
through `astype(bool)`, and the text columns are plain strings.  The
`inicio_proximo` date column and the narrative columns (`pros`, `contras`,
`url_oficial`) are never read by the scoring, filtering or warning code and
are omitted.  CSV parsing itself is out of scope. -/

structure Row where
  programa : String
  componentes_curriculares : String
  universidad : String
  ciudad : String
  tipo_programa : String
  practicas_ofrecidas : Bool
  duracion_months : Option ℚ
  precio_total_eur : Option ℚ
  ranking_universidad : Option ℚ
  credito_ECTS : Option ℚ
  porcentaje_analitico : Option ℚ
  porcentaje_gerencial : Option ℚ
  enfoque_practico : Option ℚ
  red_empresas_partners : Option ℚ
  tasa_empleabilidad_6m : Option ℚ
deriving DecidableEq, Repr, Inhabited

/-- `load_data` (lines 18-34): after the type coercions, exactly three
columns are median-imputed, by
`df[c] = df[c].fillna(df[c].median())` for
`c ∈ {tasa_empleabilidad_6m, enfoque_practico, red_empresas_partners}`;
every other column is returned as loaded. -/
def load_data (rows : List Row) : List Row :=
  let med_t := seriesMedian (rows.map (·.tasa_empleabilidad_6m))
  let med_e := seriesMedian (rows.map (·.enfoque_practico))
  let med_r := seriesMedian (rows.map (·.red_empresas_partners))
  rows.map (fun r =>
    { r with
      tasa_empleabilidad_6m := fill1 r.tasa_empleabilidad_6m med_t,
      enfoque_practico := fill1 r.enfoque_practico med_e,
      red_empresas_partners := fill1 r.red_empresas_partners med_r })

/-! ### The normalizer (`src/app.py`, lines 36-66) -/

/-- `normalize_to_100` (lines 36-40).  `series.max()`/`series.min()` skip
missing entries (`none` when no entry is present at all); when
`max == min` every entry of the result is `100` (including entries that
were missing, since `pd.Series(100, index)` is a constant series); the
`NaN == NaN` comparison is false, so an all-missing series takes the
formula branch, where every entry stays missing. -/
def normalize_to_100 (s : List (Option ℚ)) : List (Option ℚ) :=
  match seriesMax s, seriesMin s with
  | some M, some m =>
    if M = m then s.map (fun _ => some 100)
    else s.map (fun o => o.map (fun x => 100 * (x - m) / (M - m)))
  | _, _ => s.map (fun _ => none)

/-- Python's `str.lower()` on one character, for the ASCII range (the
keyword lists and the concrete inputs below contain no upper-case accented
letters, for which CPython's full Unicode lowering would differ). -/
def lowerChar (c : Char) : Char :=
  if 65 ≤ c.toNat ∧ c.toNat ≤ 90 then Char.ofNat (c.toNat + 32) else c

/-- Python's `str.lower()`. -/
def pyLower (s : String) : String := String.mk (s.data.map lowerChar)

/-- Does the character list `p` start the character list `l`? -/
def leadsWith : List Char → List Char → Bool
  | [], _ => true
  | _ :: _, [] => false
  | p :: ps, c :: cs => p = c && leadsWith ps cs

/-- Does the character list `p` occur somewhere in `l`?  (Python's
`p in l` on strings.) -/
def occursIn (p : List Char) : List Char → Bool
  | [] => List.isEmpty p
  | c :: cs => leadsWith p (c :: cs) || occursIn p cs

/-- Python's `kw in text` substring test. -/
def containsSub (text pat : String) : Bool := occursIn pat.toList text.toList

/-- The keyword lists of `ajuste_perfil_score` (lines 46-47). -/
def produccion_kws : List String :=
  ["procesos", "producción", "optimización", "industrial", "operations",
   "operaciones", "lean"]

def logistica_kws : List String := ["logística", "supply chain"]

/-- The searchable text of a record (line 50):
`f"{row['programa']} {row['componentes_curriculares']}".lower()`. -/
def searchText (r : Row) : String :=
  pyLower (r.programa ++ " " ++ r.componentes_curriculares)

/-- `any(kw in text for kw in kws)` (lines 51, 53). -/
def anyKw (kws : List String) (t : String) : Bool :=
  kws.any (fun k => containsSub t k)

/-- pandas `Series.clip(lo, hi)` on one entry. -/
def clipQ (lo hi x : ℚ) : ℚ := min hi (max lo x)

/-- The profile-fit score of one record before the final clip
(lines 49-56): 30 points for a production keyword, 20 for a logistics
keyword, 20 for an offered internship. -/
def ajusteRaw (r : Row) : ℚ :=
  (if anyKw produccion_kws (searchText r) then 30 else 0) +
    (if anyKw logistica_kws (searchText r) then 20 else 0) +
    (if r.practicas_ofrecidas then 20 else 0)

/-- `ajuste_perfil_score` (lines 42-57): the raw additive score, clipped to
`[0, 100]` by `scores.clip(0, 100)`. -/
def ajuste_perfil_score (rows : List Row) : List ℚ :=
  rows.map (fun r => clipQ 0 100 (ajusteRaw r))

/-- The price-per-credit series of `costo_eficiencia_score` (line 61):
`df['precio_total_eur'] / df['credito_ECTS'].replace(0, np.nan)`.  A
missing price, a missing credit count or a zero credit count all make the
entry missing. -/
def ppcList (rows : List Row) : List (Option ℚ) :=
  rows.map (fun r =>
    match r.precio_total_eur, r.credito_ECTS with
    | some p, some c => if c = 0 then none else some (p / c)
    | _, _ => none)

/-- The price-per-credit series after the median imputation of line 62. -/
def ppcFilled (rows : List Row) : List (Option ℚ) :=
  fillna (ppcList rows) (seriesMedian (ppcList rows))

/-- `costo_eficiencia_score` (lines 59-66): inverse normalization of the
imputed price-per-credit series; all entries are `100` when
`max == min`, and an all-missing series stays missing (the `NaN == NaN`
comparison is false and the formula keeps `NaN`). -/
def costo_eficiencia_score (rows : List Row) : List (Option ℚ) :=
  match seriesMax (ppcFilled rows), seriesMin (ppcFilled rows) with
  | some M, some m =>
    if M = m then (ppcFilled rows).map (fun _ => some 100)
    else (ppcFilled rows).map (fun o => o.map (fun x => 100 * (M - x) / (M - m)))
  | _, _ => (ppcFilled rows).map (fun _ => none)

/-! ### The scorer (`src/app.py`, lines 68-112) -/

/-- The scoring weights (lines 9-16). -/
def W_ajuste_perfil : ℚ := 0.25
def W_analitico : ℚ := 0.20
def W_gerencial : ℚ := 0.15
def W_practico : ℚ := 0.15
def W_empleabilidad : ℚ := 0.15
def W_costo : ℚ := 0.10

/-- A record of `scored_df` after the sub-score columns of lines 74-87 have
been added (and before the final score, warnings and sort). -/
structure SRow0 extends Row where
  ajuste_score : ℚ
  analitico_score : Option ℚ
  gerencial_score : Option ℚ
  practico_total_score : Option ℚ
  empleabilidad_total_score : Option ℚ
  costo_score : Option ℚ
deriving DecidableEq, Repr, Inhabited

/-- Lines 74-87 of `calculate_scores`: compute the six sub-score columns.
`analitico_score` and `gerencial_score` are the raw percentage columns;
`practico_total_score` blends the normalized practicality rating (70%) with
the internship flag times 100 (30%); `empleabilidad_total_score` blends the
normalized employment rate (60%) with the normalized partner-network size
(40%). -/
def scoreCols (rows : List Row) : List SRow0 :=
  let aj := ajuste_perfil_score rows
  let pr_norm := normalize_to_100 (rows.map (·.enfoque_practico))
  let emp_norm := normalize_to_100 (rows.map (·.tasa_empleabilidad_6m))
  let red_norm := normalize_to_100 (rows.map (·.red_empresas_partners))
  let costo := costo_eficiencia_score rows
  (List.range rows.length).map (fun i =>
    let r := rows.getD i default
    let practicas_score : ℚ := if r.practicas_ofrecidas then 100 else 0
    { toRow := r
      ajuste_score := aj.getD i 0
      analitico_score := r.porcentaje_analitico
      gerencial_score := r.porcentaje_gerencial
      practico_total_score :=
        optAdd (optMulC (pr_norm.getD i none) 0.7) (some (practicas_score * 0.3))
      empleabilidad_total_score :=
        optAdd (optMulC (emp_norm.getD i none) 0.6) (optMulC (red_norm.getD i none) 0.4)
      costo_score := costo.getD i none })

/-- The weighted aggregation of lines 90-97 before `fillna(0)`: missing
sub-scores propagate through the sum exactly as `NaN` does. -/
def finalScoreOpt (s : SRow0) : Option ℚ :=
  optAdd (optAdd (optAdd (optAdd (optAdd
    (optMulC (some s.ajuste_score) W_ajuste_perfil)
    (optMulC s.analitico_score W_analitico))
    (optMulC s.gerencial_score W_gerencial))
    (optMulC s.practico_total_score W_practico))
    (optMulC s.empleabilidad_total_score W_empleabilidad))
    (optMulC s.costo_score W_costo)

/-- A record of `scored_df` after the `Puntaje Final` column (line 90-97). -/
structure SRow1 extends SRow0 where
  puntaje_final : ℚ
deriving DecidableEq, Repr, Inhabited

/-- Lines 90-97: `scored_df['Puntaje Final'] = (...).fillna(0)`. -/
def scoredRows (rows : List Row) : List SRow1 :=
  (scoreCols rows).map (fun s => { toSRow0 := s, puntaje_final := (finalScoreOpt s).getD 0 })

/-- The three warning messages of lines 103-108. -/
def warnMix : String := "No cumple el mix buscado (analítico + gerencial < 50%)."
def warnPract : String := "Menor aplicabilidad industrial (teórico y sin prácticas)."
def warnPrecio : String := "Precio no disponible, revisar manualmente."

/-- The `warning_list` built for one record by lines 102-108.  The
comparisons follow IEEE semantics: a comparison involving a missing value
is false, so a record with a missing `porcentaje_analitico` or
`porcentaje_gerencial` never triggers the first message, and one with a
missing `enfoque_practico` never triggers the second. -/
def warningList (r : Row) : List String :=
  (if optLtC (optAdd r.porcentaje_analitico r.porcentaje_gerencial) 50
    then [warnMix] else []) ++
  (if optLtC r.enfoque_practico 2 && !r.practicas_ofrecidas
    then [warnPract] else []) ++
  (if r.precio_total_eur = none then [warnPrecio] else [])

/-- A fully scored record: `scored_df` after the `warnings` column. -/
structure SRow extends SRow1 where
  warnings : String
deriving DecidableEq, Repr, Inhabited

/-- Lines 99-110: attach `" ".join(warning_list)` to every record.  This
step only adds a column; every other column is copied unchanged. -/
def attachWarnings (l : List SRow1) : List SRow :=
  l.map (fun s => { toSRow1 := s, warnings := String.intercalate " " (warningList s.toRow) })

/-! ### `sort_values(by='Puntaje Final', ascending=False)` (line 112)

`DataFrame.sort_values` with the default `kind='quicksort'` computes a row
permutation with `pandas.core.sorting.nargsort`, which for a descending
sort reverses the key array, runs `numpy` `argsort(kind='quicksort')` on
it, maps the result through the reversed index array and reverses the
final indexer.  `numpy`'s `quicksort` for an argsort is the introsort of
`numpy/core/src/npysort/quicksort.c.src` (`aquicksort_`): median-of-three
quicksort over the index array, switching to an insertion sort on
partitions of at most `SMALL_QUICKSORT + 1 = 16` elements and to the
heapsort of `npysort/heapsort.c.src` (`aheapsort_`) when the recursion
depth exceeds `2 * msb(n)`.  The functions below transcribe those loops,
with an explicit fuel argument in place of each unbounded C loop (the fuel
chosen by the callers exceeds the loop bounds of every actual run; when it
runs out the current index array is returned, which never changes its
length).  The keys here contain no `NaN` (the final score column was
filled with 0), so the `float64` comparison is plain `<`. -/

/-- The `float64` comparison used by the sorts (no `NaN` in the keys). -/
def ltQ (a b : ℚ) : Bool := decide (a < b)

/-- Read a key (the sorts never index out of bounds). -/
def vat (v : List ℚ) (k : Nat) : ℚ := v.getD k 0

/-- Read an index-array entry. -/
def nget (t : List Nat) (k : Nat) : Nat := t.getD k 0

/-- Swap two entries of the index array (`INTP_SWAP`). -/
def nswap (t : List Nat) (i j : Nat) : List Nat :=
  (t.set i (nget t j)).set j (nget t i)

/-- `do ++pi; while (v[*pi] < vp)`. -/
def scanUp (v : List ℚ) (t : List Nat) (vp : ℚ) : Nat → Nat → Nat
  | 0, i => i + 1
  | f + 1, i => if ltQ (vat v (nget t (i + 1))) vp then scanUp v t vp f (i + 1) else i + 1

/-- `do --pj; while (vp < v[*pj])`. -/
def scanDown (v : List ℚ) (t : List Nat) (vp : ℚ) : Nat → Nat → Nat
  | 0, j => j - 1
  | f + 1, j => if ltQ vp (vat v (nget t (j - 1))) then scanDown v t vp f (j - 1) else j - 1

/-- The partition exchange loop of `aquicksort_`: scan up, scan down, stop
when the pointers cross, otherwise swap and continue.  Returns the final
index array and the crossing point `pi`. -/
def partLoop (v : List ℚ) (vp : ℚ) : Nat → List Nat → Nat → Nat → List Nat × Nat
  | 0, t, i, _ => (t, i)
  | f + 1, t, i, j =>
    let i' := scanUp v t vp (t.length + 2) i
    let j' := scanDown v t vp (t.length + 2) j
    if j' ≤ i' then (t, i')
    else partLoop v vp f (nswap t i' j') i' j'

/-- The shift loop of the insertion sort: move the saved index `vi` (with
key `vp`) left past every strictly greater key, then place it. -/
def insShift (v : List ℚ) (pl : Nat) (vi : Nat) (vp : ℚ) : Nat → List Nat → Nat → List Nat
  | 0, t, pj => t.set pj vi
  | f + 1, t, pj =>
    if pl < pj && ltQ vp (vat v (nget t (pj - 1))) then
      insShift v pl vi vp f (t.set pj (nget t (pj - 1))) (pj - 1)
    else t.set pj vi

/-- The insertion sort of `aquicksort_` on the segment `[pl, pr]`:
`for (pi = pl + 1; pi <= pr; ++pi)`. -/
def insLoop (v : List ℚ) (pl pr : Nat) : Nat → List Nat → Nat → List Nat
  | 0, t, _ => t
  | f + 1, t, pi =>
    if pi ≤ pr then
      insLoop v pl pr f (insShift v pl (nget t pi) (vat v (nget t pi)) (t.length + 2) t pi) (pi + 1)
    else t

/-- One-based read into the segment starting at `base` (the `a = tosort - 1`
pointer trick of `aheapsort_`). -/
def aget (t : List Nat) (base k : Nat) : Nat := t.getD (base + k - 1) 0

/-- One-based write into the segment starting at `base`. -/
def aset (t : List Nat) (base k x : Nat) : List Nat := t.set (base + k - 1) x

/-- The sift-down loop of `aheapsort_`: starting from hole `i` with
children from `j`, move the larger child up while it beats the saved key,
then drop the saved index `tmp` into the hole. -/
def sift (v : List ℚ) (base n : Nat) (tmp : Nat) : Nat → List Nat → Nat → Nat → List Nat
  | 0, t, i, _ => aset t base i tmp
  | f + 1, t, i, j =>
    if j ≤ n then
      let j' := if j < n && ltQ (vat v (aget t base j)) (vat v (aget t base (j + 1)))
        then j + 1 else j
      if ltQ (vat v tmp) (vat v (aget t base j')) then
        sift v base n tmp f (aset t base i (aget t base j')) j' (j' + j')
      else aset t base i tmp
    else aset t base i tmp

/-- The heap construction phase of `aheapsort_`:
`for (l = n >> 1; l > 0; --l)`. -/
def heapBuild (v : List ℚ) (base n : Nat) : Nat → List Nat → List Nat
  | 0, t => t
  | l + 1, t =>
    heapBuild v base n l
      (sift v base n (aget t base (l + 1)) (2 * n + t.length + 4) t (l + 1) (2 * (l + 1)))

/-- The extraction phase of `aheapsort_`: `for (; n > 1;)`, swapping the
root with the last element and sifting the new root down. -/
def heapExtract (v : List ℚ) (base : Nat) : Nat → List Nat → List Nat
  | 0, t => t
  | 1, t => t
  | n + 2, t =>
    let tmp := aget t base (n + 2)
    let t1 := aset t base (n + 2) (aget t base 1)
    let t2 := sift v base (n + 1) tmp (2 * n + t1.length + 8) t1 1 2
    heapExtract v base (n + 1) t2

/-- `aheapsort_` on the `n`-element segment starting at `base`. -/
def aheapsort (v : List ℚ) (base n : Nat) (t : List Nat) : List Nat :=
  heapExtract v base n (heapBuild v base n (n / 2) t)

/-- The main loop of `aquicksort_`, with the working segment `[pl, pr]`,
the introsort depth budget and the explicit stack of pending segments.
`pl + 15 < pr` is `pr - pl > SMALL_QUICKSORT`. -/
def qsLoop (v : List ℚ) : Nat → List Nat → Nat → Nat → Int → List (Nat × Nat) → List Nat
  | 0, t, _, _, _, _ => t
  | f + 1, t, pl, pr, depth, stack =>
    if pl + 15 < pr then
      if depth < 0 then
        let t' := aheapsort v pl (pr - pl + 1) t
        match stack with
        | [] => t'
        | (pl', pr') :: s => qsLoop v f t' pl' pr' (depth - 1) s
      else
        let pm := pl + (pr - pl) / 2
        let t1 := if ltQ (vat v (nget t pm)) (vat v (nget t pl)) then nswap t pm pl else t
        let t2 := if ltQ (vat v (nget t1 pr)) (vat v (nget t1 pm)) then nswap t1 pr pm else t1
        let t3 := if ltQ (vat v (nget t2 pm)) (vat v (nget t2 pl)) then nswap t2 pm pl else t2
        let vp := vat v (nget t3 pm)
        let t4 := nswap t3 pm (pr - 1)
        let p := partLoop v vp (t4.length + 2) t4 pl (pr - 1)
        let t6 := nswap p.1 p.2 (pr - 1)
        if p.2 - pl < pr - p.2 then
          qsLoop v f t6 pl (p.2 - 1) (depth - 1) ((p.2 + 1, pr) :: stack)
        else
          qsLoop v f t6 (p.2 + 1) pr (depth - 1) ((pl, p.2 - 1) :: stack)
    else
      let t' := insLoop v pl pr (pr + 2) t (pl + 1)
      match stack with
      | [] => t'
      | (pl', pr') :: s => qsLoop v f t' pl' pr' depth s

/-- `numpy` `argsort(kind='quicksort')` (ascending): run the introsort over
the index array `[0, ..., n-1]` with depth budget `2 * msb(n)`. -/
def npargsort (v : List ℚ) : List Nat :=
  let n := v.length
  if n = 0 then []
  else qsLoop v (4 * n + 64) (List.range n) 0 (n - 1) (2 * Int.ofNat (Nat.log2 n)) []

/-- `pandas.core.sorting.nargsort` with `ascending=False` on a key column
without missing values: reverse the keys, argsort ascending, map through
the reversed index array, reverse the result. -/
def nargsortDesc (v : List ℚ) : List Nat :=
  let idxrev := (List.range v.length).reverse
  ((npargsort v.reverse).map (fun k => idxrev.getD k 0)).reverse

/-- `scored_df.sort_values(by='Puntaje Final', ascending=False)` (line
112): take the rows in the order of the `nargsort` indexer. -/
def sort_values_desc (key : List ℚ) (rows : List SRow) : List SRow :=
  (nargsortDesc key).map (fun j => rows.getD j default)

/-- `calculate_scores` (lines 68-112): sub-scores, final weighted score
with `fillna(0)`, warnings, then the descending sort on `Puntaje Final`. -/
def calculate_scores (rows : List Row) : List SRow :=
  let scored := attachWarnings (scoredRows rows)
  sort_values_desc (scored.map (·.puntaje_final)) scored

/-! ### The filter layer of `run` (`src/app.py`, lines 147-154) -/

/-- The sidebar filter parameters of `run`. -/
structure FilterSpec where
  cities : List String
  program_types : List String
  price_lo : ℚ
  price_hi : ℚ
  min_score : ℚ
  practicas : Bool
deriving DecidableEq, Repr, Inhabited

/-- pandas `Series.between(lo, hi)` on one entry (inclusive on both ends);
a missing value compares false. -/
def betweenQ (o : Option ℚ) (lo hi : ℚ) : Bool :=
  match o with
  | some x => decide (lo ≤ x) && decide (x ≤ hi)
  | none => false

/-- The boolean mask of lines 147-152: city membership, modality
membership, inclusive price range, minimum final score. -/
def mask1 (f : FilterSpec) (s : SRow) : Bool :=
  f.cities.contains s.ciudad && f.program_types.contains s.tipo_programa &&
    betweenQ s.precio_total_eur f.price_lo f.price_hi &&
    decide (f.min_score ≤ s.puntaje_final)

/-- Lines 147-154: apply the four-predicate mask, then, when the
internship checkbox is set, the `practicas_ofrecidas == True` mask. -/
def run_filter (f : FilterSpec) (l : List SRow) : List SRow :=
  let fd := l.filter (mask1 f)
  if f.practicas then fd.filter (fun s => s.practicas_ofrecidas == true) else fd

/-- Modelled from the spec for the refinement claim about the filter: one
conjunctive predicate, "the subsequence of records satisfying all
predicates conjunctively (logical AND)" with the internship predicate
active only when requested. -/
def specConjPred (f : FilterSpec) (s : SRow) : Bool :=
  f.cities.contains s.ciudad && f.program_types.contains s.tipo_programa &&
    betweenQ s.precio_total_eur f.price_lo f.price_hi &&
    decide (f.min_score ≤ s.puntaje_final) &&
    (!f.practicas || s.practicas_ofrecidas)

/-- Modelled from the spec: the filter as a single pass keeping exactly
the records satisfying `specConjPred`. -/
def spec_filter (f : FilterSpec) (l : List SRow) : List SRow :=
  l.filter (specConjPred f)

/-! ### Concrete inputs used by counterexamples and witnesses -/

/-- A record with the given name, internship flag and numeric columns (the
remaining columns are fixed innocuous values). -/
def mkRow (nm : String) (prac : Bool) (pre cre ana ger enf red tas : Option ℚ) : Row :=
  { programa := nm, componentes_curriculares := "", universidad := "u", ciudad := "c",
    tipo_programa := "t", practicas_ofrecidas := prac, duracion_months := none,
    precio_total_eur := pre, ranking_universidad := none, credito_ECTS := cre,
    porcentaje_analitico := ana, porcentaje_gerencial := ger, enfoque_practico := enf,
    red_empresas_partners := red, tasa_empleabilidad_6m := tas }

/-- Records identical except for the price column. -/
def priceRow (pre : Option ℚ) : Row :=
  mkRow "p" false pre none none none none none none

def c3rows : List Row :=
  [priceRow none, priceRow (some (intQ 10)), priceRow (some (intQ 20)),
   priceRow (some (intQ 30))]

/-! ### Claim C10 -/

/-- C10: the profile-fit sub-score is a sum of at most `30 + 20 + 20 = 70`
points, so it always lies in `[0, 70]` and the `clip(0, 100)` upper bound
is never reached: clipping is the identity on every actual score. -/
theorem c10_ajuste_perfil_in_0_70 (rows : List Row) (r : Row) :
    (0 ≤ ajusteRaw r ∧ ajusteRaw r ≤ 70) ∧
    clipQ 0 100 (ajusteRaw r) = ajusteRaw r ∧
    ajuste_perfil_score rows = rows.map ajusteRaw := by
  have hb : ∀ s : Row, 0 ≤ ajusteRaw s ∧ ajusteRaw s ≤ 70 := by
    intro s
    unfold ajusteRaw
    split <;> split <;> split <;> norm_num
  have hc : ∀ s : Row, clipQ 0 100 (ajusteRaw s) = ajusteRaw s := by
    intro s
    unfold clipQ
    rw [max_eq_right (hb s).1, min_eq_right (le_trans (hb s).2 (by norm_num))]
  exact ⟨hb r, hc r, List.map_congr_left (fun a _ => hc a)⟩

/-! ### Claim C7 -/

/-- C7: the staged filtering of `run` (four-predicate mask, then the
optional internship mask) equals the single conjunctive filter described
by the spec; the result is a subsequence of the scored list (the scorer's
order is preserved), and a record is kept exactly when it satisfies all
active predicates. -/
theorem c7_filter_refines_spec (f : FilterSpec) (l : List SRow) :
    run_filter f l = spec_filter f l ∧
    (run_filter f l).Sublist l ∧
    (∀ s, s ∈ run_filter f l ↔ s ∈ l ∧ specConjPred f s = true) := by
  have h : run_filter f l = spec_filter f l := by
    unfold run_filter spec_filter
    by_cases hp : f.practicas
    · rw [if_pos hp, List.filter_filter]
      refine List.filter_congr (fun s _ => ?_)
      simp only [mask1, specConjPred, hp]
      cases s.practicas_ofrecidas <;> simp
    · rw [if_neg hp]
      refine List.filter_congr (fun s _ => ?_)
      simp only [mask1, specConjPred]
      have : f.practicas = false := by simpa using hp
      simp [this]
  refine ⟨h, ?_, fun s => ?_⟩
  · rw [h]; exact List.filter_sublist l
  · rw [h]; exact List.mem_filter

/-! ### Claim C8 -/

/-- C8: each of the three warning messages is attached exactly when its
rule holds — the combined analytic and managerial focus is (present and)
below 50, the practicality rating is (present and) below 2 with no
internship offered, the price is missing — a record can carry zero, one
or several messages (the three are pairwise distinct), and attaching the
warnings column changes nothing else on any record: every sub-score and
the final score are copied unchanged. -/
theorem c8_warnings_iff_rules (r : Row) (l : List SRow1) :
    (warnMix ∈ warningList r ↔
      ∃ a g, r.porcentaje_analitico = some a ∧ r.porcentaje_gerencial = some g ∧
        a + g < 50) ∧
    (warnPract ∈ warningList r ↔
      (∃ e, r.enfoque_practico = some e ∧ e < 2) ∧ r.practicas_ofrecidas = false) ∧
    (warnPrecio ∈ warningList r ↔ r.precio_total_eur = none) ∧
    (∀ m ∈ warningList r, m = warnMix ∨ m = warnPract ∨ m = warnPrecio) ∧
    (attachWarnings l).map (·.toSRow1) = l := by
  have hne1 : warnMix ≠ warnPract := by decide
  have hne2 : warnMix ≠ warnPrecio := by decide
  have hne3 : warnPract ≠ warnPrecio := by decide
  refine ⟨?_, ?_, ?_, ?_, ?_⟩
  · unfold warningList
    rcases ha : r.porcentaje_analitico with _ | a <;>
      rcases hg : r.porcentaje_gerencial with _ | g <;>
        simp [optAdd, optLtC, hne1, hne2]
  · unfold warningList
    rcases he : r.enfoque_practico with _ | e <;>
      rcases hpr : r.practicas_ofrecidas <;>
        simp [optLtC, hne1.symm, hne3]
  · unfold warningList
    split <;> split <;> split <;> simp_all [hne2.symm, hne3.symm]
  · unfold warningList
    intro m hm
    rcases List.mem_append.1 hm with h | h
    · rcases List.mem_append.1 h with h' | h'
      · left; revert h'; split <;> simp_all
      · right; left; revert h'; split <;> simp_all
    · right; right; revert h; split <;> simp_all
  · unfold attachWarnings
    rw [List.map_map]
    exact List.map_id _ |>.symm ▸ List.map_congr_left (fun s _ => rfl) |>.trans (List.map_id _)

/-! ### Claim C9 -/

/-- C9: for every filter specification (in particular the widest price
range) every record surviving the filter has a present price, so a record
whose `precio_total_eur` is missing can never appear in the filtered view,
even though it is present in the scorer's output. -/
theorem c9_missing_price_never_shown (f : FilterSpec) (l : List SRow) (s : SRow)
    (hs : s ∈ run_filter f l) : s.precio_total_eur ≠ none ∧ s ∈ l := by
  simp only [run_filter] at hs
  have hmem : s ∈ l.filter (mask1 f) := by
    by_cases hp : f.practicas
    · rw [if_pos hp] at hs
      exact (List.mem_filter.1 hs).1
    · rwa [if_neg hp] at hs
  have h1 := List.mem_filter.1 hmem
  refine ⟨?_, h1.1⟩
  have hmask := h1.2
  unfold mask1 at hmask
  intro hnone
  rw [hnone] at hmask
  simp [betweenQ] at hmask

def wSpec : FilterSpec :=
  { cities := ["c"], program_types := ["t"], price_lo := intQ 0, price_hi := intQ 100,
    min_score := intQ 0, practicas := false }

def wSRow : SRow :=
  { toRow := priceRow (some (intQ 10)), ajuste_score := intQ 0,
    analitico_score := none, gerencial_score := none, practico_total_score := none,
    empleabilidad_total_score := none, costo_score := none,
    puntaje_final := intQ 50, warnings := "" }

theorem c9_missing_price_never_shown_witness :
    wSRow ∈ run_filter wSpec [wSRow] ∧
    (wSRow.precio_total_eur ≠ none ∧ wSRow ∈ [wSRow]) :=
  ⟨by decide, c9_missing_price_never_shown wSpec [wSRow] wSRow (by decide)⟩

/-! ### Claim C3 (corrected) -/

/-- C3 counterexample: in a load where `precio_total_eur` is missing on one
record and the column's median exists (here `20`), the missing price is
NOT replaced by the median — `load_data` returns the price column
unchanged, contradicting the claim that every missing numeric value is
median-imputed at load time. -/
theorem c3_counterexample_price_not_imputed :
    seriesMedian (c3rows.map (·.precio_total_eur)) = some (intQ 20) ∧
    (load_data c3rows).map (·.precio_total_eur) =
      [none, some (intQ 10), some (intQ 20), some (intQ 30)] := by decide

/-- C3 (amended): at load time exactly the three columns
`tasa_empleabilidad_6m`, `enfoque_practico` and `red_empresas_partners`
are median-imputed (each with the median of its own column over the same
load); every other column — in particular `precio_total_eur`,
`credito_ECTS`, `porcentaje_analitico`, `porcentaje_gerencial`,
`duracion_months` and `ranking_universidad` — keeps its missing values,
and no record is added or dropped. -/
theorem c3_amended_only_three_columns_imputed (rows : List Row) :
    (load_data rows).length = rows.length ∧
    (load_data rows).map (·.precio_total_eur) = rows.map (·.precio_total_eur) ∧
    (load_data rows).map (·.duracion_months) = rows.map (·.duracion_months) ∧
    (load_data rows).map (·.ranking_universidad) = rows.map (·.ranking_universidad) ∧
    (load_data rows).map (·.credito_ECTS) = rows.map (·.credito_ECTS) ∧
    (load_data rows).map (·.porcentaje_analitico) = rows.map (·.porcentaje_analitico) ∧
    (load_data rows).map (·.porcentaje_gerencial) = rows.map (·.porcentaje_gerencial) ∧
    (load_data rows).map (·.tasa_empleabilidad_6m) =
      fillna (rows.map (·.tasa_empleabilidad_6m))
        (seriesMedian (rows.map (·.tasa_empleabilidad_6m))) ∧
    (load_data rows).map (·.enfoque_practico) =
      fillna (rows.map (·.enfoque_practico))
        (seriesMedian (rows.map (·.enfoque_practico))) ∧
    (load_data rows).map (·.red_empresas_partners) =
      fillna (rows.map (·.red_empresas_partners))
        (seriesMedian (rows.map (·.red_empresas_partners))) := by
  unfold load_data fillna
  refine ⟨by simp, ?_, ?_, ?_, ?_, ?_, ?_, ?_, ?_, ?_⟩ <;> simp [List.map_map]

/-! ### Claim C1 -/

/-- C1: on a non-empty collection of (present) numeric values,
`normalize_to_100` returns 100 everywhere when all values are equal; when
the minimum and maximum are distinct it returns
`100 * (x - min) / (max - min)` for each value `x`, so the minimum maps to
0, the maximum maps to 100, and every score lies in `[0, 100]`. -/
theorem c1_normalize_to_100 (l : List ℚ) (h : l ≠ []) :
    ((∀ x ∈ l, ∀ y ∈ l, x = y) →
      normalize_to_100 (l.map some) = l.map (fun _ => some 100)) ∧
    (∀ M m, smax l = some M → smin l = some m → M ≠ m →
      normalize_to_100 (l.map some) =
        l.map (fun x => some (100 * (x - m) / (M - m))) ∧
      ∀ x ∈ l,
        (0 ≤ 100 * (x - m) / (M - m) ∧ 100 * (x - m) / (M - m) ≤ 100) ∧
        (x = m → 100 * (x - m) / (M - m) = 0) ∧
        (x = M → 100 * (x - m) / (M - m) = 100)) := by
  have hf : (l.map some).filterMap id = l := by simp
  constructor
  · intro hall
    obtain ⟨M, hM⟩ := Option.isSome_iff_exists.1 (smax_isSome h)
    obtain ⟨m, hm⟩ := Option.isSome_iff_exists.1 (smin_isSome h)
    have e1 : seriesMax (l.map some) = some M := by rw [seriesMax, hf]; exact hM
    have e2 : seriesMin (l.map some) = some m := by rw [seriesMin, hf]; exact hm
    have hMm : M = m := hall M (smax_mem hM) m (smin_mem hm)
    simp only [normalize_to_100, e1, e2, if_pos hMm, List.map_map]
    rfl
  · intro M m hM hm hne
    have e1 : seriesMax (l.map some) = some M := by rw [seriesMax, hf]; exact hM
    have e2 : seriesMin (l.map some) = some m := by rw [seriesMin, hf]; exact hm
    have hmM : m ≤ M := smin_le (smax_mem hM) hm
    have hpos : 0 < M - m := by
      rcases lt_or_eq_of_le hmM with hlt | heq
      · linarith
      · exact absurd heq.symm hne
    constructor
    · simp only [normalize_to_100, e1, e2, if_neg hne, List.map_map]
      rfl
    · intro x hx
      have h1 : m ≤ x := smin_le hx hm
      have h2 : x ≤ M := le_smax hx hM
      refine ⟨⟨?_, ?_⟩, ?_, ?_⟩
      · exact div_nonneg (by linarith) hpos.le
      · rw [div_le_iff₀ hpos]; linarith
      · intro hxm; rw [hxm]; simp
      · intro hxM
        rw [hxM, mul_div_assoc, div_self (ne_of_gt hpos), mul_one]

theorem c1_normalize_to_100_witness :
    ([intQ 1, intQ 3] ≠ [] ∧ smax [intQ 1, intQ 3] = some (intQ 3) ∧
      smin [intQ 1, intQ 3] = some (intQ 1) ∧ intQ 3 ≠ intQ 1) ∧
    normalize_to_100 ([intQ 1, intQ 3].map some) =
      [intQ 1, intQ 3].map (fun x => some (100 * (x - intQ 1) / (intQ 3 - intQ 1))) :=
  ⟨⟨by decide, by decide, by decide, by decide⟩,
    ((c1_normalize_to_100 [intQ 1, intQ 3] (by decide)).2 (intQ 3) (intQ 1)
      (by decide) (by decide) (by decide)).1⟩

/-! ### Claim C5 -/

theorem medianQ_isSome {l : List ℚ} (h : l ≠ []) : (medianQ l).isSome := by
  unfold medianQ
  rw [if_neg h]
  split <;> simp

theorem smax_eq_of {l : List ℚ} {M : ℚ} (hmem : M ∈ l) (hub : ∀ a ∈ l, a ≤ M) :
    smax l = some M := by
  obtain ⟨M', hM'⟩ :=
    Option.isSome_iff_exists.1 (smax_isSome (List.ne_nil_of_mem hmem))
  rw [hM']
  exact congrArg some (le_antisymm (hub M' (smax_mem hM')) (le_smax hmem hM'))

theorem smin_eq_of {l : List ℚ} {m : ℚ} (hmem : m ∈ l) (hlb : ∀ a ∈ l, m ≤ a) :
    smin l = some m := by
  obtain ⟨m', hm'⟩ :=
    Option.isSome_iff_exists.1 (smin_isSome (List.ne_nil_of_mem hmem))
  rw [hm']
  exact congrArg some (le_antisymm (smin_le hmem hm') (hlb m' (smin_mem hm')))

theorem filterMap_fillna (s : List (Option ℚ)) (v : ℚ) :
    (fillna s (some v)).filterMap id = s.map (fun o => o.getD v) := by
  unfold fillna fill1
  rw [List.filterMap_map]
  exact List.filterMap_eq_map _ ▸ rfl

/-- Filling the missing entries of a series with any value between the
minimum and the maximum of the present entries (in particular the median)
does not change the minimum or the maximum. -/
theorem fillna_extremes (s : List (Option ℚ)) {M m v : ℚ}
    (hM : smax (s.filterMap id) = some M) (hm : smin (s.filterMap id) = some m)
    (hvm : m ≤ v) (hvM : v ≤ M) :
    seriesMax (fillna s (some v)) = some M ∧
    seriesMin (fillna s (some v)) = some m := by
  rw [seriesMax, seriesMin, filterMap_fillna]
  have hmemM : M ∈ s.map (fun o => o.getD v) := by
    obtain ⟨o, ho, hoM⟩ := List.mem_filterMap.1 (smax_mem hM)
    refine List.mem_map.2 ⟨o, ho, ?_⟩
    simp only [id_eq] at hoM
    rw [hoM]
    rfl
  have hmemm : m ∈ s.map (fun o => o.getD v) := by
    obtain ⟨o, ho, hom⟩ := List.mem_filterMap.1 (smin_mem hm)
    refine List.mem_map.2 ⟨o, ho, ?_⟩
    simp only [id_eq] at hom
    rw [hom]
    rfl
  constructor
  · refine smax_eq_of hmemM (fun a ha => ?_)
    obtain ⟨o, ho, hoa⟩ := List.mem_map.1 ha
    cases o with
    | none => rw [← hoa]; exact hvM
    | some x =>
      rw [← hoa]
      exact le_smax (List.mem_filterMap.2 ⟨some x, ho, rfl⟩) hM
  · refine smin_eq_of hmemm (fun a ha => ?_)
    obtain ⟨o, ho, hoa⟩ := List.mem_map.1 ha
    cases o with
    | none => rw [← hoa]; exact hvm
    | some x =>
      rw [← hoa]
      exact smin_le (List.mem_filterMap.2 ⟨some x, ho, rfl⟩) hm

/-- C5: on a collection with at least one computable price-per-credit
value: a record whose credit count is zero or missing gets the median
price-per-credit; the resulting series is inverse-normalized, with the
formula `100 * (max - x) / (max - min)` when `max ≠ min` (so the lowest
ratio scores 100 and the highest scores 0), and every score is 100 when
all ratios are equal. The imputation does not move the extremes: the
series' max and min after filling are the max and min of the computable
ratios. -/
theorem c5_costo_eficiencia (rows : List Row)
    (hv : (ppcList rows).filterMap id ≠ []) :
    (∃ med, seriesMedian (ppcList rows) = some med ∧
      ∀ (i : ℕ) (r : Row), rows[i]? = some r →
        (r.credito_ECTS = none ∨ r.credito_ECTS = some 0) →
        (ppcFilled rows)[i]? = some (some med)) ∧
    (∃ M m, seriesMax (ppcFilled rows) = some M ∧
      seriesMin (ppcFilled rows) = some m ∧
      smax ((ppcList rows).filterMap id) = some M ∧
      smin ((ppcList rows).filterMap id) = some m ∧
      (M = m → costo_eficiencia_score rows =
        (ppcFilled rows).map (fun _ => some 100)) ∧
      (M ≠ m → ∀ (i : ℕ) (x : ℚ), (ppcFilled rows)[i]? = some (some x) →
        (costo_eficiencia_score rows)[i]? =
          some (some (100 * (M - x) / (M - m))) ∧
        (x = m → (costo_eficiencia_score rows)[i]? = some (some 100)) ∧
        (x = M → (costo_eficiencia_score rows)[i]? = some (some 0)))) := by
  obtain ⟨med, hmed⟩ := Option.isSome_iff_exists.1 (medianQ_isSome hv)
  obtain ⟨M, hM⟩ := Option.isSome_iff_exists.1 (smax_isSome hv)
  obtain ⟨m, hm⟩ := Option.isSome_iff_exists.1 (smin_isSome hv)
  have hbet := medianQ_between hM hm hmed
  have hext := fillna_extremes (ppcList rows) hM hm hbet.1 hbet.2
  have hmed' : seriesMedian (ppcList rows) = some med := hmed
  have hfill : ppcFilled rows = fillna (ppcList rows) (some med) := by
    rw [ppcFilled, hmed']
  have hFM : seriesMax (ppcFilled rows) = some M := by rw [hfill]; exact hext.1
  have hFm : seriesMin (ppcFilled rows) = some m := by rw [hfill]; exact hext.2
  constructor
  · refine ⟨med, hmed', ?_⟩
    intro i r hr hcred
    have hppc : (ppcList rows)[i]? = some none := by
      rw [ppcList, List.getElem?_map, hr]
      rcases hcred with h0 | h0 <;>
        rcases hpre : r.precio_total_eur with _ | p <;> simp [h0, hpre]
    rw [hfill, fillna, List.getElem?_map, hppc]
    rfl
  · refine ⟨M, m, hFM, hFm, hM, hm, ?_, ?_⟩
    · intro hMm
      rw [costo_eficiencia_score, hFM, hFm]
      simp [hMm]
    · intro hne i x hx
      have hred : costo_eficiencia_score rows =
          (ppcFilled rows).map (fun o => o.map (fun y => 100 * (M - y) / (M - m))) := by
        rw [costo_eficiencia_score, hFM, hFm]
        simp [hne]
      have hform : (costo_eficiencia_score rows)[i]? =
          some (some (100 * (M - x) / (M - m))) := by
        rw [hred, List.getElem?_map, hx]
        rfl
      have hmM : m ≤ M := by
        have := smin_le (smax_mem hM) hm
        exact this
      have hpos : 0 < M - m := by
        rcases lt_or_eq_of_le hmM with hlt | heq
        · linarith
        · exact absurd heq.symm hne
      refine ⟨hform, fun hxm => ?_, fun hxM => ?_⟩
      · rw [hform, hxm, mul_div_assoc, div_self (ne_of_gt hpos), mul_one]
      · rw [hform, hxM]
        simp

def c5rows : List Row :=
  [mkRow "a" false (some (intQ 10)) (some (intQ 1)) none none none none none,
   mkRow "b" false (some (intQ 30)) (some (intQ 1)) none none none none none,
   mkRow "z" false (some (intQ 99)) (some (intQ 0)) none none none none none]

theorem c5_costo_eficiencia_witness :
    (ppcList c5rows).filterMap id ≠ [] ∧
    (∃ med, seriesMedian (ppcList c5rows) = some med ∧
      ∀ (i : ℕ) (r : Row), c5rows[i]? = some r →
        (r.credito_ECTS = none ∨ r.credito_ECTS = some 0) →
        (ppcFilled c5rows)[i]? = some (some med)) :=
  ⟨by decide, (c5_costo_eficiencia c5rows (by decide)).1⟩

/-! ### Claim C6 -/

/-- The inverse min-max normalization value of the distinguished element
never decreases when that element decreases, whatever the rest of the
collection is.  Stated over collections `A ++ q :: B` and `A ++ q' :: B`
with `q' ≤ q`. -/
theorem invNorm_mono {A B : List ℚ} {q q' M m M' m' : ℚ} (hq : q' ≤ q)
    (hM : smax (A ++ q :: B) = some M) (hm : smin (A ++ q :: B) = some m)
    (hM' : smax (A ++ q' :: B) = some M') (hm' : smin (A ++ q' :: B) = some m') :
    (if M = m then (100 : ℚ) else 100 * (M - q) / (M - m)) ≤
      (if M' = m' then (100 : ℚ) else 100 * (M' - q') / (M' - m')) := by
  have hqV : q ∈ A ++ q :: B := by simp
  have hqV' : q' ∈ A ++ q' :: B := by simp
  have h1 : m ≤ q := smin_le hqV hm
  have h2 : q ≤ M := le_smax hqV hM
  have h1' : m' ≤ q' := smin_le hqV' hm'
  have h2' : q' ≤ M' := le_smax hqV' hM'
  have hmem : ∀ a, a ∈ A ++ q' :: B → a = q' ∨ a ∈ A ++ q :: B := by
    intro a ha
    rcases List.mem_append.1 ha with h | h
    · exact Or.inr (List.mem_append.2 (Or.inl h))
    · rcases List.mem_cons.1 h with h | h
      · exact Or.inl h
      · exact Or.inr (List.mem_append.2 (Or.inr (List.mem_cons_of_mem _ h)))
  have hmem' : ∀ a, a ∈ A ++ q :: B → a = q ∨ a ∈ A ++ q' :: B := by
    intro a ha
    rcases List.mem_append.1 ha with h | h
    · exact Or.inr (List.mem_append.2 (Or.inl h))
    · rcases List.mem_cons.1 h with h | h
      · exact Or.inl h
      · exact Or.inr (List.mem_append.2 (Or.inr (List.mem_cons_of_mem _ h)))
  by_cases hMm : M = m
  · -- every element of the original collection equals M, in particular q
    have hall : ∀ a ∈ A ++ q :: B, a = M :=
      fun a ha => le_antisymm (le_smax ha hM) (hMm ▸ smin_le ha hm)
    rw [if_pos hMm]
    by_cases hM'm' : M' = m'
    · rw [if_pos hM'm']
    · rw [if_neg hM'm']
      have hm'q' : m' = q' := by
        rcases hmem m' (smin_mem hm') with h | h
        · exact h
        · -- m' is one of the unchanged elements, all equal to M
          exfalso
          have hm'M : m' = M := hall m' h
          rcases hmem M' (smax_mem hM') with hMq' | hMV
          · -- the new maximum is q', squeezed between m' = M and q = M
            have hqM : q = M := hall q hqV
            have ha : M ≤ q' := hm'M ▸ h1'
            have hb : q' = M := le_antisymm (by linarith [hqM ▸ hq]) ha
            exact hM'm' (by rw [hMq', hb, hm'M])
          · have hM'M : M' = M := hall M' hMV
            exact hM'm' (by rw [hM'M, hm'M])
      have : 100 * (M' - q') / (M' - m') = 100 := by
        rw [← hm'q', mul_div_assoc, div_self (sub_ne_zero.2 hM'm'), mul_one]
      rw [this]
  · rw [if_neg hMm]
    have hmM : m < M := lt_of_le_of_ne (h1.trans h2) (Ne.symm hMm)
    have hpos : 0 < M - m := by linarith
    have hLle : 100 * (M - q) / (M - m) ≤ 100 := by
      rw [div_le_iff₀ hpos]
      linarith
    by_cases hM'm' : M' = m'
    · rw [if_pos hM'm']
      exact hLle
    · rw [if_neg hM'm']
      have hm'M' : m' < M' := lt_of_le_of_ne (h1'.trans h2') (Ne.symm hM'm')
      have hpos' : 0 < M' - m' := by linarith
      have hRge : 0 ≤ 100 * (M' - q') / (M' - m') :=
        div_nonneg (mul_nonneg (by norm_num) (by linarith)) hpos'.le
      by_cases hm'q' : m' = q'
      · have : 100 * (M' - q') / (M' - m') = 100 := by
          rw [← hm'q', mul_div_assoc, div_self (sub_ne_zero.2 hM'm'), mul_one]
        rw [this]
        exact hLle
      · have hm'V : m' ∈ A ++ q :: B := (hmem m' (smin_mem hm')).resolve_left hm'q'
        have hmm' : m ≤ m' := smin_le hm'V hm
        have hm'm : m' ≤ m := by
          rcases hmem' m (smin_mem hm) with hmq | hmV'
          · linarith [hmq ▸ hq]
          · exact smin_le hmV' hm'
        have hmeq : m' = m := le_antisymm hm'm hmm'
        by_cases hMq : M = q
        · have hL0 : 100 * (M - q) / (M - m) = 0 := by rw [hMq]; simp
          rw [hL0]
          exact hRge
        · have hMV' : M ∈ A ++ q' :: B :=
            (hmem' M (smax_mem hM)).resolve_left hMq
          have hMle : M ≤ M' := le_smax hMV' hM'
          have hM'le : M' ≤ M := by
            rcases hmem M' (smax_mem hM') with h | h
            · linarith [h ▸ hq]
            · exact le_smax h hM
          have hMeq : M' = M := le_antisymm hM'le hMle
          rw [hMeq, hmeq]
          rw [div_le_div_iff_of_pos_right hpos]
          linarith

/-- The cost-efficiency score at a record whose price-per-credit is the
(present) value `q`, expressed through the max and min of the computable
ratios. -/
theorem costo_at_valid (rows : List Row) (i : ℕ) (q M m : ℚ)
    (hq : (ppcList rows)[i]? = some (some q))
    (hM : smax ((ppcList rows).filterMap id) = some M)
    (hm : smin ((ppcList rows).filterMap id) = some m) :
    (costo_eficiencia_score rows)[i]? =
      some (some (if M = m then (100 : ℚ) else 100 * (M - q) / (M - m))) := by
  have hv : (ppcList rows).filterMap id ≠ [] := by
    intro h
    rw [h] at hM
    simp [smax] at hM
  obtain ⟨med, hmed⟩ := Option.isSome_iff_exists.1 (medianQ_isSome hv)
  have hbet := medianQ_between hM hm hmed
  have hext := fillna_extremes (ppcList rows) hM hm hbet.1 hbet.2
  have hfill : ppcFilled rows = fillna (ppcList rows) (some med) := by
    rw [ppcFilled]
    rw [show seriesMedian (ppcList rows) = some med from hmed]
  have hFM : seriesMax (ppcFilled rows) = some M := by rw [hfill]; exact hext.1
  have hFm : seriesMin (ppcFilled rows) = some m := by rw [hfill]; exact hext.2
  have hFq : (ppcFilled rows)[i]? = some (some q) := by
    rw [hfill, fillna, List.getElem?_map, hq]
    rfl
  by_cases hMm : M = m
  · rw [if_pos hMm]
    have hred : costo_eficiencia_score rows =
        (ppcFilled rows).map (fun _ => some 100) := by
      rw [costo_eficiencia_score, hFM, hFm]
      simp [hMm]
    rw [hred, List.getElem?_map, hFq]
    rfl
  · rw [if_neg hMm]
    have hred : costo_eficiencia_score rows =
        (ppcFilled rows).map (fun o => o.map (fun y => 100 * (M - y) / (M - m))) := by
      rw [costo_eficiencia_score, hFM, hFm]
      simp [hMm]
    rw [hred, List.getElem?_map, hFq]
    rfl

/-- C6: decreasing the price of a record with a present, positive credit
count (holding everything else fixed) never decreases that record's
cost-efficiency sub-score; both scores are computed (not missing). -/
theorem c6_price_decrease_mono (rows : List Row) (i : ℕ) (r : Row) (p p' c : ℚ)
    (hr : rows[i]? = some r) (hp : r.precio_total_eur = some p)
    (hc : r.credito_ECTS = some c) (hcpos : 0 < c) (hdec : p' ≤ p) :
    ∃ s s', (costo_eficiencia_score rows)[i]? = some (some s) ∧
      (costo_eficiencia_score
        (rows.set i { r with precio_total_eur := some p' }))[i]? = some (some s') ∧
      s ≤ s' := by
  have hq : p' / c ≤ p / c := by
    rw [div_le_div_iff_of_pos_right hcpos]
    exact hdec
  have hLi : (ppcList rows)[i]? = some (some (p / c)) := by
    rw [ppcList, List.getElem?_map, hr]
    simp [hp, hc, ne_of_gt hcpos]
  have hiL : i < (ppcList rows).length := (List.getElem?_eq_some.1 hLi).1
  have hset : ppcList (rows.set i { r with precio_total_eur := some p' }) =
      (ppcList rows).set i (some (p' / c)) := by
    rw [ppcList, ppcList, List.map_set]
    congr 1
    simp [hc, ne_of_gt hcpos]
  have hLi' : (ppcList (rows.set i { r with precio_total_eur := some p' }))[i]? =
      some (some (p' / c)) := by
    rw [hset]
    exact List.getElem?_set_self hiL
  have hdecomp : ppcList rows =
      (ppcList rows).take i ++ some (p / c) :: (ppcList rows).drop (i + 1) := by
    conv_lhs => rw [← List.take_append_drop i (ppcList rows)]
    congr 1
    rw [List.drop_eq_getElem_cons hiL]
    congr 1
    exact (List.getElem?_eq_some.1 hLi).2
  have hdecomp' : (ppcList rows).set i (some (p' / c)) =
      (ppcList rows).take i ++ some (p' / c) :: (ppcList rows).drop (i + 1) := by
    rw [List.set_eq_take_append_cons_drop, if_pos hiL]
  have hV : (ppcList rows).filterMap id =
      ((ppcList rows).take i).filterMap id ++
        p / c :: ((ppcList rows).drop (i + 1)).filterMap id := by
    conv_lhs => rw [hdecomp]
    rw [List.filterMap_append]
    rfl
  have hV' : ((ppcList rows).set i (some (p' / c))).filterMap id =
      ((ppcList rows).take i).filterMap id ++
        p' / c :: ((ppcList rows).drop (i + 1)).filterMap id := by
    rw [hdecomp']
    rw [List.filterMap_append]
    rfl
  have hvne : (ppcList rows).filterMap id ≠ [] := by
    rw [hV]
    simp
  have hvne' : ((ppcList rows).set i (some (p' / c))).filterMap id ≠ [] := by
    rw [hV']
    simp
  obtain ⟨M, hM⟩ := Option.isSome_iff_exists.1 (smax_isSome hvne)
  obtain ⟨m, hm⟩ := Option.isSome_iff_exists.1 (smin_isSome hvne)
  obtain ⟨M', hM'⟩ := Option.isSome_iff_exists.1 (smax_isSome hvne')
  obtain ⟨m', hm'⟩ := Option.isSome_iff_exists.1 (smin_isSome hvne')
  refine ⟨if M = m then (100 : ℚ) else 100 * (M - p / c) / (M - m),
    if M' = m' then (100 : ℚ) else 100 * (M' - p' / c) / (M' - m'),
    costo_at_valid rows i (p / c) M m hLi hM hm, ?_, ?_⟩
  · exact costo_at_valid _ i (p' / c) M' m' hLi' (hset ▸ hM') (hset ▸ hm')
  · exact invNorm_mono hq (hV ▸ hM) (hV ▸ hm) (hV' ▸ hM') (hV' ▸ hm')

def c6rows : List Row :=
  [mkRow "a" false (some (intQ 10)) (some (intQ 2)) none none none none none,
   mkRow "b" false (some (intQ 30)) (some (intQ 2)) none none none none none]

theorem c6_price_decrease_mono_witness :
    (c6rows[0]? = some (mkRow "a" false (some (intQ 10)) (some (intQ 2))
        none none none none none) ∧
      (mkRow "a" false (some (intQ 10)) (some (intQ 2))
        none none none none none).precio_total_eur = some (intQ 10) ∧
      (mkRow "a" false (some (intQ 10)) (some (intQ 2))
        none none none none none).credito_ECTS = some (intQ 2) ∧
      0 < intQ 2 ∧ intQ 4 ≤ intQ 10) ∧
    (∃ s s', (costo_eficiencia_score c6rows)[0]? = some (some s) ∧
      (costo_eficiencia_score
        (c6rows.set 0 { mkRow "a" false (some (intQ 10)) (some (intQ 2))
          none none none none none with
          precio_total_eur := some (intQ 4) }))[0]? = some (some s') ∧
      s ≤ s') :=
  ⟨⟨by decide, by decide, by decide, by decide, by decide⟩,
    c6_price_decrease_mono c6rows 0 _ (intQ 10) (intQ 4) (intQ 2)
      (by decide) (by decide) (by decide) (by decide) (by decide)⟩

/-! ### Claim C4: invariants of the sort machinery

Every operation of the transcribed sorts only writes entries read from the
index array (or saved from it), so the array's length never changes and
its entries stay below `n`.  These two invariants hold for every fuel
value, so they are independent of the fuel bounds chosen by the callers. -/

theorem nswap_length (t : List Nat) (i j : Nat) : (nswap t i j).length = t.length := by
  simp [nswap]

theorem partLoop_length (v : List ℚ) (vp : ℚ) :
    ∀ (f : Nat) (t : List Nat) (i j : Nat), (partLoop v vp f t i j).1.length = t.length := by
  intro f
  induction f with
  | zero => intro t i j; rfl
  | succ f ih =>
    intro t i j
    rw [partLoop]
    split
    · rfl
    · rw [ih]
      exact nswap_length ..

theorem insShift_length (v : List ℚ) (pl vi : Nat) (vp : ℚ) :
    ∀ (f : Nat) (t : List Nat) (pj : Nat), (insShift v pl vi vp f t pj).length = t.length := by
  intro f
  induction f with
  | zero => intro t pj; simp [insShift]
  | succ f ih =>
    intro t pj
    rw [insShift]
    split
    · rw [ih]; simp
    · simp

theorem insLoop_length (v : List ℚ) (pl pr : Nat) :
    ∀ (f : Nat) (t : List Nat) (pi : Nat), (insLoop v pl pr f t pi).length = t.length := by
  intro f
  induction f with
  | zero => intro t pi; rfl
  | succ f ih =>
    intro t pi
    rw [insLoop]
    split
    · rw [ih, insShift_length]
    · rfl

theorem aset_length (t : List Nat) (base k x : Nat) : (aset t base k x).length = t.length := by
  simp [aset]

theorem sift_length (v : List ℚ) (base n tmp : Nat) :
    ∀ (f : Nat) (t : List Nat) (i j : Nat), (sift v base n tmp f t i j).length = t.length := by
  intro f
  induction f with
  | zero => intro t i j; exact aset_length ..
  | succ f ih =>
    intro t i j
    rw [sift]
    dsimp only
    split
    · split <;> split <;> first
        | rw [ih, aset_length]
        | exact aset_length ..
    · exact aset_length ..

theorem heapBuild_length (v : List ℚ) (base n : Nat) :
    ∀ (l : Nat) (t : List Nat), (heapBuild v base n l t).length = t.length := by
  intro l
  induction l with
  | zero => intro t; rfl
  | succ l ih =>
    intro t
    rw [heapBuild, ih, sift_length]

theorem heapExtract_length (v : List ℚ) (base : Nat) :
    ∀ (n : Nat) (t : List Nat), (heapExtract v base n t).length = t.length := by
  intro n
  induction n using Nat.strong_induction_on with
  | _ n ih =>
    intro t
    match n with
    | 0 => rfl
    | 1 => rfl
    | n + 2 =>
      rw [heapExtract, ih (n + 1) (by omega), sift_length, aset_length]

theorem aheapsort_length (v : List ℚ) (base n : Nat) (t : List Nat) :
    (aheapsort v base n t).length = t.length := by
  rw [aheapsort, heapExtract_length, heapBuild_length]

theorem ite_nswap_length (c : Prop) [Decidable c] (t : List Nat) (i j : Nat) :
    (if c then nswap t i j else t).length = t.length := by
  split
  · exact nswap_length ..
  · rfl

theorem qsLoop_length (v : List ℚ) :
    ∀ (f : Nat) (t : List Nat) (pl pr : Nat) (depth : Int) (stack : List (Nat × Nat)),
      (qsLoop v f t pl pr depth stack).length = t.length := by
  intro f
  induction f with
  | zero => intro t pl pr depth stack; rfl
  | succ f ih =>
    intro t pl pr depth stack
    rw [qsLoop]
    dsimp only
    split
    · split
      · split
        · exact aheapsort_length ..
        · rw [ih, aheapsort_length]
      · simp only [apply_ite List.length, ih, nswap_length, partLoop_length,
          ite_nswap_length, ite_self]
    · split
      · exact insLoop_length ..
      · rw [ih, insLoop_length]

theorem npargsort_length (v : List ℚ) : (npargsort v).length = v.length := by
  rw [npargsort]
  split
  · simp [*]
  · rw [qsLoop_length, List.length_range]

theorem nargsortDesc_length (v : List ℚ) : (nargsortDesc v).length = v.length := by
  rw [nargsortDesc]
  simp [npargsort_length]

theorem nget_lt {n : Nat} {t : List Nat} (h : ∀ x ∈ t, x < n) (hn : 0 < n) (k : Nat) :
    nget t k < n := by
  unfold nget
  rcases lt_or_ge k t.length with hk | hk
  · rw [List.getD_eq_getElem?_getD, List.getElem?_eq_getElem hk]
    exact h _ (List.getElem_mem hk)
  · rw [List.getD_eq_getElem?_getD, List.getElem?_eq_none hk]
    exact hn

theorem set_allLt {n : Nat} {t : List Nat} {v : Nat} (h : ∀ x ∈ t, x < n) (hv : v < n)
    (i : Nat) : ∀ x ∈ t.set i v, x < n := fun x hx =>
  (List.mem_or_eq_of_mem_set hx).elim (h x) (fun e => e ▸ hv)

theorem nswap_allLt {n : Nat} {t : List Nat} (h : ∀ x ∈ t, x < n) (hn : 0 < n)
    (i j : Nat) : ∀ x ∈ nswap t i j, x < n := by
  unfold nswap
  exact set_allLt (set_allLt h (nget_lt h hn j) i) (nget_lt h hn i) j

theorem aget_lt {n : Nat} {t : List Nat} (h : ∀ x ∈ t, x < n) (hn : 0 < n)
    (base k : Nat) : aget t base k < n := by
  unfold aget
  rcases lt_or_ge (base + k - 1) t.length with hk | hk
  · rw [List.getD_eq_getElem?_getD, List.getElem?_eq_getElem hk]
    exact h _ (List.getElem_mem hk)
  · rw [List.getD_eq_getElem?_getD, List.getElem?_eq_none hk]
    exact hn

theorem aset_allLt {n : Nat} {t : List Nat} {x : Nat} (h : ∀ y ∈ t, y < n) (hx : x < n)
    (base k : Nat) : ∀ y ∈ aset t base k x, y < n := by
  unfold aset
  exact set_allLt h hx _

theorem partLoop_allLt {n : Nat} (v : List ℚ) (vp : ℚ) (hn : 0 < n) :
    ∀ (f : Nat) (t : List Nat) (i j : Nat), (∀ x ∈ t, x < n) →
      ∀ x ∈ (partLoop v vp f t i j).1, x < n := by
  intro f
  induction f with
  | zero => intro t i j h; exact h
  | succ f ih =>
    intro t i j h
    rw [partLoop]
    split
    · exact h
    · exact ih _ _ _ (nswap_allLt h hn _ _)

theorem insShift_allLt {n : Nat} (v : List ℚ) (pl : Nat) {vi : Nat} (vp : ℚ)
    (hn : 0 < n) (hvi : vi < n) :
    ∀ (f : Nat) (t : List Nat) (pj : Nat), (∀ x ∈ t, x < n) →
      ∀ x ∈ insShift v pl vi vp f t pj, x < n := by
  intro f
  induction f with
  | zero => intro t pj h; exact set_allLt h hvi _
  | succ f ih =>
    intro t pj h
    rw [insShift]
    split
    · exact ih _ _ (set_allLt h (nget_lt h hn _) _)
    · exact set_allLt h hvi _

theorem insLoop_allLt {n : Nat} (v : List ℚ) (pl pr : Nat) (hn : 0 < n) :
    ∀ (f : Nat) (t : List Nat) (pi : Nat), (∀ x ∈ t, x < n) →
      ∀ x ∈ insLoop v pl pr f t pi, x < n := by
  intro f
  induction f with
  | zero => intro t pi h; exact h
  | succ f ih =>
    intro t pi h
    rw [insLoop]
    split
    · exact ih _ _ (insShift_allLt v pl _ hn (nget_lt h hn _) _ _ _ h)
    · exact h

theorem sift_allLt {n0 : Nat} (v : List ℚ) (base n : Nat) {tmp : Nat} (hn : 0 < n0)
    (htmp : tmp < n0) :
    ∀ (f : Nat) (t : List Nat) (i j : Nat), (∀ x ∈ t, x < n0) →
      ∀ x ∈ sift v base n tmp f t i j, x < n0 := by
  intro f
  induction f with
  | zero => intro t i j h; exact aset_allLt h htmp _ _
  | succ f ih =>
    intro t i j h
    rw [sift]
    dsimp only
    split
    · split <;> split <;> first
        | exact ih _ _ _ (aset_allLt h (aget_lt h hn _ _) _ _)
        | exact aset_allLt h htmp _ _
    · exact aset_allLt h htmp _ _

theorem heapBuild_allLt {n0 : Nat} (v : List ℚ) (base n : Nat) (hn : 0 < n0) :
    ∀ (l : Nat) (t : List Nat), (∀ x ∈ t, x < n0) →
      ∀ x ∈ heapBuild v base n l t, x < n0 := by
  intro l
  induction l with
  | zero => intro t h; exact h
  | succ l ih =>
    intro t h
    rw [heapBuild]
    exact ih _ (sift_allLt v base n hn (aget_lt h hn _ _) _ _ _ _ h)

theorem heapExtract_allLt {n0 : Nat} (v : List ℚ) (base : Nat) (hn : 0 < n0) :
    ∀ (n : Nat) (t : List Nat), (∀ x ∈ t, x < n0) →
      ∀ x ∈ heapExtract v base n t, x < n0 := by
  intro n
  induction n using Nat.strong_induction_on with
  | _ n ih =>
    intro t h
    match n with
    | 0 => exact h
    | 1 => exact h
    | n + 2 =>
      rw [heapExtract]
      exact ih (n + 1) (by omega) _
        (sift_allLt v base (n + 1) hn (aget_lt h hn _ _) _ _ _ _
          (aset_allLt h (aget_lt h hn _ _) _ _))

theorem aheapsort_allLt {n0 : Nat} (v : List ℚ) (base n : Nat) (hn : 0 < n0)
    {t : List Nat} (h : ∀ x ∈ t, x < n0) : ∀ x ∈ aheapsort v base n t, x < n0 := by
  rw [aheapsort]
  exact heapExtract_allLt v base hn _ _ (heapBuild_allLt v base n hn _ _ h)

theorem ite_nswap_allLt {n0 : Nat} (hn : 0 < n0) {t : List Nat} (h : ∀ x ∈ t, x < n0)
    (c : Prop) [Decidable c] (i j : Nat) :
    ∀ x ∈ (if c then nswap t i j else t), x < n0 := by
  split
  · exact nswap_allLt h hn i j
  · exact h

theorem ite_allLt {n0 : Nat} (c : Prop) [Decidable c] {l1 l2 : List Nat}
    (h1 : ∀ x ∈ l1, x < n0) (h2 : ∀ x ∈ l2, x < n0) :
    ∀ x ∈ (if c then l1 else l2), x < n0 := by
  split
  · exact h1
  · exact h2

theorem qsLoop_allLt {n0 : Nat} (v : List ℚ) (hn : 0 < n0) :
    ∀ (f : Nat) (t : List Nat) (pl pr : Nat) (depth : Int) (stack : List (Nat × Nat)),
      (∀ x ∈ t, x < n0) → ∀ x ∈ qsLoop v f t pl pr depth stack, x < n0 := by
  intro f
  induction f with
  | zero => intro t pl pr depth stack h; exact h
  | succ f ih =>
    intro t pl pr depth stack h
    rw [qsLoop]
    dsimp only
    split
    · split
      · split
        · exact aheapsort_allLt v _ _ hn h
        · exact ih _ _ _ _ _ (aheapsort_allLt v _ _ hn h)
      · apply ite_allLt <;>
        · apply ih
          apply nswap_allLt _ hn
          apply partLoop_allLt v _ hn
          apply nswap_allLt _ hn
          apply ite_nswap_allLt hn
          apply ite_nswap_allLt hn
          apply ite_nswap_allLt hn h
    · split
      · exact insLoop_allLt v _ _ hn _ _ _ h
      · exact ih _ _ _ _ _ (insLoop_allLt v _ _ hn _ _ _ h)

theorem npargsort_bounded (v : List ℚ) : ∀ j ∈ npargsort v, j < v.length := by
  rw [npargsort]
  split
  · simp
  · next hne =>
    apply qsLoop_allLt v (Nat.pos_of_ne_zero hne)
    intro x hx
    exact List.mem_range.1 hx

theorem nargsortDesc_bounded (v : List ℚ) : ∀ j ∈ nargsortDesc v, j < v.length := by
  intro j hj
  rw [nargsortDesc] at hj
  rw [List.mem_reverse] at hj
  obtain ⟨k, hk, rfl⟩ := List.mem_map.1 hj
  have hvne : v.length ≠ 0 := by
    intro h0
    have hrev : v.reverse.length = 0 := by simp [h0]
    rw [npargsort] at hk
    simp [hrev] at hk
  rcases lt_or_ge k ((List.range v.length).reverse.length) with hlt | hge
  · have hmem : (List.range v.length).reverse.getD k 0 ∈ (List.range v.length).reverse := by
      rw [List.getD_eq_getElem?_getD, List.getElem?_eq_getElem hlt]
      exact List.getElem_mem hlt
    rw [List.mem_reverse] at hmem
    exact List.mem_range.1 hmem
  · rw [List.getD_eq_getElem?_getD, List.getElem?_eq_none hge]
    exact Nat.pos_of_ne_zero hvne

theorem scoreCols_length (rows : List Row) : (scoreCols rows).length = rows.length := by
  simp [scoreCols]

theorem scoredRows_length (rows : List Row) : (scoredRows rows).length = rows.length := by
  simp [scoredRows, scoreCols_length]

theorem attachWarnings_length (l : List SRow1) : (attachWarnings l).length = l.length := by
  simp [attachWarnings]

theorem sort_values_desc_length (key : List ℚ) (rows : List SRow) :
    (sort_values_desc key rows).length = key.length := by
  simp [sort_values_desc, nargsortDesc_length]

theorem calculate_scores_length (rows : List Row) :
    (calculate_scores rows).length = rows.length := by
  rw [calculate_scores]
  rw [sort_values_desc_length, List.length_map, attachWarnings_length,
    scoredRows_length]

theorem sort_values_desc_mem {key : List ℚ} {rows : List SRow}
    (hlen : key.length = rows.length) :
    ∀ s ∈ sort_values_desc key rows, s ∈ rows := by
  intro s hs
  rw [sort_values_desc] at hs
  obtain ⟨j, hj, rfl⟩ := List.mem_map.1 hs
  have hjlt : j < rows.length := hlen ▸ nargsortDesc_bounded key j hj
  rw [List.getD_eq_getElem?_getD, List.getElem?_eq_getElem hjlt]
  exact List.getElem_mem hjlt

/-- C4: the scorer's output has exactly as many records as the input (the
sort is a reindexing of the scored rows); every output record is one of
the scored rows, and its stored final score is the weighted aggregate with
a missing (NaN) aggregate replaced by 0 — the record is kept with final
score 0, never dropped.  The same final-score equation holds at every
input position of the pre-sort scored list. -/
theorem c4_scores_complete (rows : List Row) :
    (calculate_scores rows).length = rows.length ∧
    (∀ s ∈ calculate_scores rows, s ∈ attachWarnings (scoredRows rows) ∧
      s.puntaje_final = (finalScoreOpt s.toSRow0).getD 0) ∧
    (∀ i, i < rows.length → ∃ s1 : SRow1, (scoredRows rows)[i]? = some s1 ∧
      s1.puntaje_final = (finalScoreOpt s1.toSRow0).getD 0) := by
  refine ⟨calculate_scores_length rows, ?_, ?_⟩
  · intro s hs
    rw [calculate_scores] at hs
    have hmem : s ∈ attachWarnings (scoredRows rows) :=
      sort_values_desc_mem (List.length_map _ _) s hs
    refine ⟨hmem, ?_⟩
    rw [attachWarnings] at hmem
    obtain ⟨s1, hs1, rfl⟩ := List.mem_map.1 hmem
    rw [scoredRows] at hs1
    obtain ⟨s0, hs0, rfl⟩ := List.mem_map.1 hs1
    rfl
  · intro i hi
    have hi' : i < (scoreCols rows).length := by rw [scoreCols_length]; exact hi
    refine ⟨⟨(scoreCols rows).get ⟨i, hi'⟩,
      (finalScoreOpt ((scoreCols rows).get ⟨i, hi'⟩)).getD 0⟩, ?_, rfl⟩
    rw [scoredRows, List.getElem?_map, List.getElem?_eq_getElem hi']
    rfl

theorem c4_scores_complete_witness :
    0 < ([priceRow none] : List Row).length ∧
    ∃ s1 : SRow1, (scoredRows [priceRow none])[0]? = some s1 ∧
      s1.puntaje_final = (finalScoreOpt s1.toSRow0).getD 0 :=
  ⟨by decide, (c4_scores_complete [priceRow none]).2.2 0 (by decide)⟩

/-! ### Claim C2

`calculate_scores` sorts with pandas `sort_values` under the DEFAULT
`kind='quicksort'`, which pandas itself documents as not stable
(`'mergesort'` and `'stable'` are the only stable algorithms).  For at
most 16 rows the introsort never partitions and its insertion sort is
stable, so the instability only shows at 17 rows or more.  The input
below has 17 records: the first scores 67 and the sixteen others are tied
at 61.  The output is sorted descending, but the tied records come out in
the order p09, p15, p14, ..., p01, ..., p16 — not their input order
p01, p02, ..., p16 — so the tie-break claimed by the specification does
not hold on the code. -/

def c2row (nm : String) (ana : Int) : Row :=
  mkRow nm true (some (intQ 9000)) (some (intQ 60)) (some (intQ ana))
    (some (intQ 40)) (some (intQ 3)) (some (intQ 10)) (some (intQ 80))

def c2rows : List Row :=
  [c2row "p00" 80, c2row "p01" 50, c2row "p02" 50, c2row "p03" 50,
   c2row "p04" 50, c2row "p05" 50, c2row "p06" 50, c2row "p07" 50,
   c2row "p08" 50, c2row "p09" 50, c2row "p10" 50, c2row "p11" 50,
   c2row "p12" 50, c2row "p13" 50, c2row "p14" 50, c2row "p15" 50,
   c2row "p16" 50]

set_option maxHeartbeats 1000000 in
theorem c2pr : normalize_to_100 (c2rows.map (·.enfoque_practico)) =
    List.replicate 17 (some (100 : ℚ)) := by
  simp [c2rows, c2row, mkRow, normalize_to_100, seriesMax, seriesMin, smax, smin,
    List.replicate]

set_option maxHeartbeats 1000000 in
theorem c2em : normalize_to_100 (c2rows.map (·.tasa_empleabilidad_6m)) =
    List.replicate 17 (some (100 : ℚ)) := by
  simp [c2rows, c2row, mkRow, normalize_to_100, seriesMax, seriesMin, smax, smin,
    List.replicate]

set_option maxHeartbeats 1000000 in
theorem c2re : normalize_to_100 (c2rows.map (·.red_empresas_partners)) =
    List.replicate 17 (some (100 : ℚ)) := by
  simp [c2rows, c2row, mkRow, normalize_to_100, seriesMax, seriesMin, smax, smin,
    List.replicate]

set_option maxHeartbeats 1000000 in
theorem c2co : costo_eficiencia_score c2rows = List.replicate 17 (some (100 : ℚ)) := by
  have h60 : ¬ (intQ 60 = (0 : ℚ)) := by decide
  simp [c2rows, c2row, mkRow, costo_eficiencia_score, ppcFilled, ppcList, fillna, fill1,
    seriesMedian, medianQ, seriesMax, seriesMin, smax, smin, h60,
    List.insertionSort, List.orderedInsert, List.replicate]

set_option maxHeartbeats 4000000 in
theorem c2fin :
    (scoredRows c2rows).map (·.puntaje_final) =
      List.map intQ [67, 61, 61, 61, 61, 61, 61, 61, 61, 61, 61, 61, 61, 61, 61, 61, 61] := by
  have hflag : ∀ r ∈ c2rows, anyKw produccion_kws (searchText r) = false ∧
      anyKw logistica_kws (searchText r) = false ∧ r.practicas_ofrecidas = true := by decide
  have haj : ajuste_perfil_score c2rows = c2rows.map (fun _ => (20 : ℚ)) := by
    unfold ajuste_perfil_score
    refine List.map_congr_left (fun r hr => ?_)
    obtain ⟨h1, h2, h3⟩ := hflag r hr
    unfold clipQ ajusteRaw
    rw [h1, h2, h3]
    norm_num
  have hrange : List.range 17 = [0, 1, 2, 3, 4, 5, 6, 7, 8, 9, 10, 11, 12, 13, 14, 15, 16] := rfl
  have hlen : c2rows.length = 17 := rfl
  unfold scoredRows scoreCols
  rw [hlen, hrange, haj, c2pr, c2em, c2re, c2co]
  simp only [c2rows, c2row, mkRow, List.map_cons, List.map_nil, List.map_map,
    List.getD_cons_zero, List.getD_cons_succ, List.replicate, Function.comp]
  norm_num [finalScoreOpt, optAdd, optMulC, intQ_eq,
    W_ajuste_perfil, W_analitico, W_gerencial, W_practico, W_empleabilidad, W_costo]

theorem c2order :
    (calculate_scores c2rows).map (·.programa) =
      ["p00", "p09", "p15", "p14", "p13", "p12", "p11", "p10", "p08", "p01",
       "p07", "p06", "p05", "p04", "p03", "p02", "p16"] := by
  have hkey : (attachWarnings (scoredRows c2rows)).map (·.puntaje_final) =
      List.map intQ [67, 61, 61, 61, 61, 61, 61, 61, 61, 61, 61, 61, 61, 61, 61, 61, 61] := by
    rw [attachWarnings, List.map_map]
    exact c2fin
  rw [calculate_scores]
  rw [hkey]
  decide

/-- C2 (code bug): on the 17-record input `c2rows`, record p00 has final
score 67 and records p01, ..., p16 are all tied at 61 (first conjunct); the
scorer's output order is p00, p09, p15, p14, ..., p01, ..., p16 (second
conjunct), so the sixteen tied records do NOT retain their input order
p01, p02, ..., p16.  The output is sorted descending, but the stable
tie-break required by the specification fails: `sort_values` is called
with the default unstable `kind='quicksort'` (the numpy introsort),
whose partition exchange step reorders equal keys once the input exceeds
16 rows. -/
theorem c2_quicksort_reorders_ties :
    ((scoredRows c2rows).map (·.puntaje_final) =
      List.map intQ [67, 61, 61, 61, 61, 61, 61, 61, 61, 61, 61, 61, 61, 61, 61, 61, 61]) ∧
    (calculate_scores c2rows).map (·.programa) =
      ["p00", "p09", "p15", "p14", "p13", "p12", "p11", "p10", "p08", "p01",
       "p07", "p06", "p05", "p04", "p03", "p02", "p16"] :=
  ⟨c2fin, c2order⟩

end Dashboard
